import Mathlib

/-!
Verification of the attendance-processing pipeline in `app.py` against its
natural-language specification.

The development shallowly embeds the core of `app.py`:
  * the string helpers `clean_name` and `normalize_key` (app.py lines 12-27),
  * the per-file schema normalizer / identity resolver / validator
    `standardize_columns` (app.py lines 30-133), over a column-oriented
    dataframe model,
  * the module-level pipeline (app.py lines 208-286): timestamp parsing with
    silent drop of unparseable rows, per-day deduplication, per-student
    aggregation (`mode_nonblank`, `student_summary`), most-recent-by-student,
    and the status-report merge.

Modelling conventions:
  * a dataframe cell is `Option String`; `none` stands for a missing value
    (pandas NaN); `.astype(str)` renders NaN as the string "nan" (`pyToStr`).
  * machine floats do not occur: `AttendancePercent` is modelled over `ℚ`
    with rounding to one decimal place.
  * `pd.to_datetime` is kept abstract as a parameter
    `parse : Cell → Option Nat` returning seconds; `.dt.normalize()`
    truncates to midnight, i.e. `t / 86400 * 86400`.
  * pandas sorts: a multi-column `sort_values` uses `np.lexsort`, which is
    stable, and is modelled by `List.insertionSort` (stable) under the
    corresponding lexicographic relation.
-/

/-! ### Python string primitives (ASCII fragment) -/

/-- Python whitespace class (the ASCII part of the regex class backslash-s):
space, tab, newline, carriage return, vertical tab, form feed. -/

def pyIsSpace (c : Char) : Bool :=
  c.toNat = 32 || c.toNat = 9 || c.toNat = 10 || c.toNat = 13 || c.toNat = 11 || c.toNat = 12

/-- Character-list version of Python `str.strip()`: drop leading and trailing
whitespace. -/
def stripChars (l : List Char) : List Char :=
  ((l.dropWhile pyIsSpace).reverse.dropWhile pyIsSpace).reverse

/-- Character-list version of `re.sub(r"backslash-s+", " ", s)`: collapse every
maximal whitespace run to a single space. -/
def collapseChars : List Char → List Char
  | [] => []
  | [a] => if pyIsSpace a then [' '] else [a]
  | a :: b :: l =>
    if pyIsSpace a && pyIsSpace b then collapseChars (b :: l)
    else (if pyIsSpace a then ' ' else a) :: collapseChars (b :: l)

/-- Python `str.strip()`. -/
def pyStrip (s : String) : String := ⟨stripChars s.data⟩

/-- Python `str.lower()` (ASCII). -/
def pyLower (s : String) : String := ⟨s.data.map Char.toLower⟩

/-- Python `re.sub(r"backslash-s+", " ", s)` on a whole string. -/
def collapseWs (s : String) : String := ⟨collapseChars s.data⟩

/-- A dataframe cell: `none` is pandas NaN / Python `None`. -/
abbrev Cell := Option String

/-- `str(value)` / `.astype(str)` on a cell: pandas renders NaN as "nan". -/
def pyToStr (c : Cell) : String :=
  match c with
  | none => "nan"
  | some s => s

/-- app.py lines 12-18, `clean_name`: empty string for NaN or blank input,
otherwise trim and collapse internal whitespace. -/
def clean_name (c : Cell) : String :=
  match c with
  | none => ""
  | some s => if pyStrip s = "" then "" else collapseWs (pyStrip s)

/-- app.py lines 21-27, `normalize_key`: empty string for `None`/NaN,
otherwise strip, lower-case, then collapse internal whitespace. -/
def normalize_key (c : Cell) : String :=
  match c with
  | none => ""
  | some s => collapseWs (pyLower (pyStrip s))

/-- Modelled from the spec wording for claim comparison (spec section 4.2):
"Normalization function normalizeKey(s): trim, lower-case, collapse internal
whitespace; treat null/blank/the literal strings nan/none as empty."  This is
the spec-side reference function, not code from app.py. -/
def normalizeKeySpec (c : Cell) : String :=
  match c with
  | none => ""
  | some s =>
    let t := collapseWs (pyLower (pyStrip s))
    if t = "" ∨ t = "nan" ∨ t = "none" then "" else t

/-! ### Column-oriented dataframe model -/
/-- A dataframe: an ordered list of named columns, each a list of cells. -/
abbrev DF := List (String × List Cell)

namespace DF

/-- `df.columns`. -/
def cols (d : DF) : List String := d.map Prod.fst

/-- `c in df.columns`. -/
def hasCol (d : DF) (c : String) : Bool := (cols d).contains c

/-- `df[c]` (empty when `c` is absent). -/
def getCol (d : DF) (c : String) : List Cell :=
  ((d.find? (fun p => p.1 == c)).map Prod.snd).getD []

/-- Number of rows (length of the first column). -/
def nrows (d : DF) : Nat :=
  match d with
  | [] => 0
  | p :: _ => p.2.length

/-- `df[c] = vals`: replace the column in place if present, else append it. -/
def setCol (d : DF) (c : String) (vals : List Cell) : DF :=
  if hasCol d c then d.map (fun p => if p.1 = c then (c, vals) else p)
  else d ++ [(c, vals)]

/-- `df.rename(columns={old: new})`. -/
def rename (d : DF) (old new : String) : DF :=
  d.map (fun p => if p.1 = old then (new, p.2) else p)

/-- `df[[c1, ..., cn]]`: projection to the listed columns, in that order. -/
def select (d : DF) (cs : List String) : DF :=
  cs.map (fun c => (c, getCol d c))

end DF

/-- The per-file diagnostic record built by `standardize_columns`
(app.py lines 124-131). -/
structure Report where
  file : String
  detectedTime : String
  detectedEmail : String
  detectedName : String
  identifierUsed : String
  columnsPreview : String
deriving DecidableEq, Repr

/-- The error raised by a `raise ValueError(...)` site in
`standardize_columns`; each carries the offending file name, matching the
`[filename]` prefix of the Python message.  The spec taxonomy calls the two
missing-column errors `SchemaError` and the blank-key error
`ValidationError`. -/
inductive AppError where
  /-- app.py lines 60-63: neither "Start time" nor "Timestamp" present. -/
  | missingTimestamp (filename : String)
  /-- app.py lines 110-114: no email column and name fallback disabled. -/
  | missingEmail (filename : String)
  /-- app.py lines 119-122: some resolved StudentKey is blank. -/
  | blankStudentKey (filename : String)
deriving DecidableEq, Repr

/-- The file name carried by an error. -/
def AppError.filename : AppError → String
  | .missingTimestamp f => f
  | .missingEmail f => f
  | .blankStudentKey f => f

/-- Whether an error is a `SchemaError` in the spec taxonomy (a required
column is structurally absent). -/
def AppError.isSchemaError : AppError → Bool
  | .missingTimestamp _ => true
  | .missingEmail _ => true
  | .blankStudentKey _ => false

/-- The ordered name-column alias list (app.py lines 74-83). -/
def name_candidates : List String :=
  ["Full Name", "Name", "Student Name", "Respondent", "Name (First Last)",
   "Your Name", "Name1", "Name2"]

/-- app.py lines 52-63, the time-column resolution step of
`standardize_columns`: accept "Start time", or rename "Timestamp" to it;
returns the updated frame and `detected_time`. -/
def resolveTime (df : DF) : DF × Option String :=
  if DF.hasCol df "Start time" then (df, some "Start time")
  else if DF.hasCol df "Timestamp" then
    (DF.rename df "Timestamp" "Start time", some "Timestamp")
  else (df, none)

/-- app.py lines 65-71, the email-column resolution step: accept "Email", or
rename "Email Address" to it; returns the updated frame and
`detected_email`. -/
def resolveEmail (df : DF) : DF × Option String :=
  if DF.hasCol df "Email" then (df, some "Email")
  else if DF.hasCol df "Email Address" then
    (DF.rename df "Email Address" "Email", some "Email Address")
  else (df, none)

/-- app.py lines 84-89, the name-column scan: take the first present alias as
the DisplayName source (cleaned), or a blank column; returns the updated
frame and `detected_name`. -/
def resolveName (df : DF) : DF × Option String :=
  match name_candidates.find? (fun c => DF.hasCol df c) with
  | some c =>
    (DF.setCol df "DisplayName" ((DF.getCol df c).map (fun v => some (clean_name v))), some c)
  | none => (DF.setCol df "DisplayName" (List.replicate (DF.nrows df) (some "")), none)

/-- app.py lines 92-116, the StudentKey construction: normalize the Email
column (strip, lower, nan/none to blank) and derive StudentKey from it, with
optional per-row fallback to DisplayName; with no email column, fail unless
name fallback is enabled.  The row-wise `df.apply(..., axis=1)` of lines
99-102 is `List.zipWith` over the Email and DisplayName columns.  Returns the
updated frame and `used_identifier`. -/
def buildStudentKey (df : DF) (allow_name_fallback : Bool) (filename : String) :
    Except AppError (DF × String) :=
  if DF.hasCol df "Email" then
    let df := DF.setCol df "Email"
      ((DF.getCol df "Email").map (fun v => some (pyLower (pyStrip (pyToStr v)))))
    let df := DF.setCol df "Email"
      ((DF.getCol df "Email").map
        (fun v => if pyToStr v = "nan" ∨ pyToStr v = "none" then some "" else v))
    if allow_name_fallback then
      .ok (DF.setCol df "StudentKey"
        (List.zipWith
          (fun e n => some (if normalize_key e ≠ "" then normalize_key e else normalize_key n))
          (DF.getCol df "Email") (DF.getCol df "DisplayName")),
        "Email (fallback to Name if blank)")
    else
      .ok (DF.setCol df "StudentKey"
        ((DF.getCol df "Email").map (fun v => some (normalize_key v))), "Email")
  else
    let df := DF.setCol df "Email" (List.replicate (DF.nrows df) (some ""))
    if ¬ allow_name_fallback then .error (.missingEmail filename)
    else
      .ok (DF.setCol df "StudentKey"
        ((DF.getCol df "DisplayName").map (fun v => some (normalize_key v))),
        "Name (fallback; no Email column)")

/-- app.py lines 124-131, the diagnostic report. -/
def mkReport (filename : String) (detected_time detected_email detected_name : Option String)
    (used_identifier : String) (original_cols : List String) : Report :=
  { file := filename
    detectedTime := detected_time.getD "NOT FOUND"
    detectedEmail := detected_email.getD "NOT FOUND"
    detectedName := detected_name.getD "NOT FOUND"
    identifierUsed := used_identifier
    columnsPreview :=
      String.intercalate ", " (original_cols.take 12) ++
        (if original_cols.length > 12 then "..." else "") }

/-- app.py lines 30-133, `standardize_columns`: normalize one raw table.
Composed of the stage functions above, in source order: time-column
resolution with its failure check (lines 53-63), email-column resolution
(lines 66-71), name-column scan (lines 74-89), StudentKey construction
(lines 92-116), blank-key validation (lines 118-122), diagnostic report and
projection to the four canonical columns (lines 124-133). -/
def standardize_columns (temp_df : DF) (allow_name_fallback : Bool)
    (filename : String) : Except AppError (DF × Report) :=
  let df := temp_df
  let original_cols := DF.cols df
  let tstep := resolveTime df
  let df := tstep.1
  if ¬ DF.hasCol df "Start time" then .error (.missingTimestamp filename) else
  let estep := resolveEmail df
  let df := estep.1
  let nstep := resolveName df
  let df := nstep.1
  match buildStudentKey df allow_name_fallback filename with
  | .error e => .error e
  | .ok (df, used_identifier) =>
    if (DF.getCol df "StudentKey").any (fun v => (pyToStr v).length == 0) then
      .error (.blankStudentKey filename)
    else
      .ok (DF.select df ["Start time", "Email", "DisplayName", "StudentKey"],
        mkReport filename tstep.2 estep.2 nstep.2 used_identifier original_cols)

/-! ### Parsed records and per-day deduplication -/
/-- One combined, parsed, re-normalized record as it exists right before the
deduplication step (app.py lines 208-221): `SubmissionDateTime_ET` (seconds),
`ClassDate` (truncated to midnight), and the normalized `StudentKey`, `Email`,
`DisplayName`. -/
structure PRow where
  ts : Nat
  classDate : Nat
  studentKey : String
  email : String
  displayName : String
deriving DecidableEq, Repr

/-- The deduplication key of app.py line 226: (ClassDate, StudentKey). -/
def keyOf (r : PRow) : Nat × String := (r.classDate, r.studentKey)

/-- The lexicographic sort key of app.py line 225:
(ClassDate, StudentKey, SubmissionDateTime).  Strings are compared through
their character lists, which Mathlib proves is exactly the `String` order
(`String.le_iff_toList_le`). -/
def sortKey (r : PRow) : Lex (Nat × Lex (List Char × Nat)) :=
  toLex (r.classDate, toLex (r.studentKey.data, r.ts))

/-- The row order used by `df.sort_values(["ClassDate", "StudentKey",
"SubmissionDateTime_ET"])`. -/
def recLe (a b : PRow) : Prop := sortKey a ≤ sortKey b

instance : DecidableRel recLe := fun a b => inferInstanceAs (Decidable (sortKey a ≤ sortKey b))

instance : IsTotal PRow recLe := ⟨fun a b => le_total (sortKey a) (sortKey b)⟩

instance : IsTrans PRow recLe := ⟨fun _ _ _ hab hbc => le_trans hab hbc⟩

/-- Comparison by timestamp only (what `recLe` reduces to inside one
(ClassDate, StudentKey) group). -/
def tsLe (a b : PRow) : Prop := a.ts ≤ b.ts

instance : DecidableRel tsLe := fun a b => inferInstanceAs (Decidable (a.ts ≤ b.ts))

instance : IsTotal PRow tsLe := ⟨fun a b => Nat.le_total a.ts b.ts⟩

instance : IsTrans PRow tsLe := ⟨fun _ _ _ => Nat.le_trans⟩

/-- `drop_duplicates(keep="first")` keyed by `key`, with `seen` the set of
keys already encountered: keep a row iff its key has not been seen before,
preserving order. -/
def keepFirstBy {α κ : Type} [DecidableEq κ] (key : α → κ) : List α → List κ → List α
  | [], _ => []
  | a :: l, seen =>
    if key a ∈ seen then keepFirstBy key l seen
    else a :: keepFirstBy key l (key a :: seen)

/-- app.py lines 224-228, the Deduplicator: stable sort by (ClassDate,
StudentKey, SubmissionDateTime) — pandas uses `np.lexsort`, which is stable,
modelled by `List.insertionSort` — then `drop_duplicates(subset=["ClassDate",
"StudentKey"], keep="first")`. -/
def daily (df : List PRow) : List PRow :=
  keepFirstBy keyOf (List.insertionSort recLe df) []

/-- Specification-side notion for claim C3: the earliest-timestamp record of
a list, ties broken by original input order (the first record, scanning left
to right, whose timestamp is minimal). -/
def firstMinTs : List PRow → Option PRow
  | [] => none
  | a :: l =>
    match firstMinTs l with
    | none => some a
    | some m => if m.ts < a.ts then some m else some a

/-! ### The module-level pipeline (app.py lines 208-286) -/
/-- One row of the concatenated standardized tables (columns "Start time",
"Email", "DisplayName", "StudentKey"), before timestamp parsing. -/
structure SRow where
  start_time : Cell
  email : Cell
  displayName : Cell
  studentKey : Cell
deriving DecidableEq, Repr

/-- Read the rows of a standardized dataframe through its four canonical
columns. -/
def toRows (d : DF) : List SRow :=
  (List.range (DF.nrows d)).map (fun i =>
    { start_time := (DF.getCol d "Start time").getD i none
      email := (DF.getCol d "Email").getD i none
      displayName := (DF.getCol d "DisplayName").getD i none
      studentKey := (DF.getCol d "StudentKey").getD i none })

/-- app.py lines 211-218: parse `Start time` with `pd.to_datetime(...,
errors="coerce")` — kept abstract as `parse`, `none` meaning NaT — drop
unparseable rows (`dropna`), derive `ClassDate` by truncation to midnight,
and re-normalize StudentKey/Email (strip + lower over `astype(str)`) and
DisplayName (`clean_name`).  Row order is preserved. -/
def parseRows (parse : Cell → Option Nat) (rows : List SRow) : List PRow :=
  rows.filterMap (fun r =>
    (parse r.start_time).map (fun t =>
      { ts := t
        classDate := t / 86400 * 86400
        studentKey := pyLower (pyStrip (pyToStr r.studentKey))
        email := pyLower (pyStrip (pyToStr r.email))
        displayName := clean_name r.displayName }))

/-- app.py lines 235-238, `mode_nonblank`: restrict a value series to its
non-blank entries and return the most frequent value; `value_counts()` lists
values by first appearance and sorts stably by descending count, and
`idxmax()` picks the first entry, so the result is the first-encountered
value among those of maximal count (the default if all entries are blank). -/
def mode_nonblank (l : List String) (dflt : String) : String :=
  let s := l.filter (fun x => decide (pyStrip x ≠ ""))
  match s.find? (fun v => s.all (fun w => decide (s.count w ≤ s.count v))) with
  | some v => v
  | none => dflt

/-- app.py line 240: the per-StudentKey display-name mapping. -/
def name_map (d : List PRow) (k : String) : String :=
  mode_nonblank ((d.filter (fun r => decide (r.studentKey = k))).map PRow.displayName) "Unknown"

/-- app.py line 241: the per-StudentKey email mapping. -/
def email_map (d : List PRow) (k : String) : String :=
  mode_nonblank ((d.filter (fun r => decide (r.studentKey = k))).map PRow.email) ""

/-- `groupby("StudentKey")` group labels: distinct keys in sorted order
(pandas `groupby` sorts group keys). -/
def summaryKeys (d : List PRow) : List String :=
  List.insertionSort (fun a b => a.data ≤ b.data) (keepFirstBy id (d.map PRow.studentKey) [])

/-- `.round(1)`: round to one decimal place, over `ℚ`. -/
def round1 (q : ℚ) : ℚ := ((round (q * 10) : ℤ) : ℚ) / 10

/-- One row of `student_summary` (app.py lines 247-256).  The source keeps a
StudentKey column until the final column projection at line 256; the field is
retained here for bookkeeping. -/
structure SumRow where
  studentKey : String
  displayName : String
  email : String
  daysPresent : Nat
  totalClassDays : Nat
  attendancePercent : ℚ
  lastSeen : Nat
deriving DecidableEq, Repr

/-- app.py lines 247-256, `student_summary`: one row per StudentKey with
DaysPresent = number of distinct ClassDates of the group, LastSeen = max
ClassDate, name/email via the mode maps, and
AttendancePercent = round(DaysPresent / total_days * 100, 1). -/
def student_summary (d : List PRow) (total_days : Nat) : List SumRow :=
  (summaryKeys d).map (fun k =>
    let g := d.filter (fun r => decide (r.studentKey = k))
    { studentKey := k
      displayName := name_map d k
      email := email_map d k
      daysPresent := ((g.map PRow.classDate).toFinset).card
      totalClassDays := total_days
      attendancePercent :=
        round1 (((((g.map PRow.classDate).toFinset).card : ℚ) / (total_days : ℚ)) * 100)
      lastSeen := (g.map PRow.classDate).foldr max 0 })

/-- The single-column sort `daily.sort_values("ClassDate")` of app.py
line 269 (modelled as a stable sort). -/
def dateLe (a b : PRow) : Prop := a.classDate ≤ b.classDate

instance : DecidableRel dateLe := fun a b => inferInstanceAs (Decidable (a.classDate ≤ b.classDate))

/-- `drop_duplicates(keep="last")`: keep the last occurrence of each key,
preserving the order of the kept rows. -/
def keepLastBy {α κ : Type} [DecidableEq κ] (key : α → κ) (l : List α) : List α :=
  (keepFirstBy key l.reverse []).reverse

/-- app.py lines 268-272, `most_recent`: sort by ClassDate and keep the last
row per StudentKey (its max-ClassDate row: within `daily` a student has at
most one row per day). -/
def most_recent (d : List PRow) : List PRow :=
  keepLastBy PRow.studentKey (List.insertionSort dateLe d)

/-- app.py lines 273-275: overwrite DisplayName/Email of `most_recent` with
the per-student mode maps (the projection to the four sheet columns at line
275 keeps exactly these values; StudentKey is retained here for
bookkeeping). -/
def most_recent_mapped (d : List PRow) : List PRow :=
  (most_recent d).map (fun r =>
    { r with displayName := name_map d r.studentKey, email := email_map d r.studentKey })

/-- Order of the final `sort_values("ClassDate", ascending=False)` at app.py
line 282. -/
def statusLe (a b : PRow × Option SumRow) : Prop := b.1.classDate ≤ a.1.classDate

instance : DecidableRel statusLe :=
  fun a b => inferInstanceAs (Decidable (b.1.classDate ≤ a.1.classDate))

/-- app.py lines 278-286, `status_report`: left-merge of the most-recent
sheet with the student summary **on the Email column** (`on="Email"`,
`how="left"`): each left row is paired with every summary row having an equal
Email value, or with `none` when there is no match; then sort by ClassDate
descending.  Both operands carry their studentKey fields so the pairing can
be inspected; the merge itself compares only Email. -/
def status_report (mr : List PRow) (ss : List SumRow) : List (PRow × Option SumRow) :=
  List.insertionSort statusLe
    (mr.flatMap (fun m =>
      let hits := ss.filter (fun s => decide (s.email = m.email))
      if hits.isEmpty then [(m, none)] else hits.map (fun s => (m, some s))))

/-- The two `raise ValueError` sites of the module-level pipeline; the spec
taxonomy calls both `NoDataError`. -/
inductive PipelineError where
  /-- app.py lines 220-221: no rows survive timestamp parsing. -/
  | noRecords
  /-- app.py lines 231-232: no distinct class days after deduplication. -/
  | noDays
deriving DecidableEq, Repr

/-- The result tables of one run (the sheets derived from the deduplicated
set that the claims refer to; Daily_Attendance and Per_Day_Counts are built
analogously and are not needed by any claim). -/
structure Tables where
  daily : List PRow
  totalDays : Nat
  summary : List SumRow
  mostRecent : List PRow
  statusReport : List (PRow × Option SumRow)
deriving DecidableEq, Repr

/-- app.py lines 208-286: the run over the concatenated standardized rows —
parse timestamps (dropping unparseable rows), fail when nothing remains,
deduplicate, count distinct class days, fail when zero, then build the
derived tables. -/
def runPipeline (parse : Cell → Option Nat) (rows : List SRow) :
    Except PipelineError Tables :=
  let df := parseRows parse rows
  if df.isEmpty then .error .noRecords
  else
    let d := daily df
    let total_days := ((d.map PRow.classDate).toFinset).card
    if total_days = 0 then .error .noDays
    else
      let ss := student_summary d total_days
      let mr := most_recent_mapped d
      .ok { daily := d, totalDays := total_days, summary := ss,
            mostRecent := mr, statusReport := status_report mr ss }

/-! ### Concrete run fixtures for witnesses -/
/-- A concrete timestamp parser for witness runs: strings of decimal digits
parse as a second count, everything else is NaT. -/
def parseNat : Cell → Option Nat
  | none => none
  | some s =>
    if s.data ≠ [] ∧ s.data.all (fun c => 48 ≤ c.toNat ∧ c.toNat ≤ 57) then
      some (s.data.foldl (fun n c => n * 10 + (c.toNat - 48)) 0)
    else none

/-- Witness input A: two students on two days plus one unparseable row. -/
def rowsA : List SRow :=
  [{ start_time := some "100", email := some "a@b.com", displayName := some "Jane Doe",
     studentKey := some "a@b.com" },
   { start_time := some "200000", email := some "b@c.com", displayName := some "Bob",
     studentKey := some "b@c.com" },
   { start_time := some "nope", email := some "c@d.com", displayName := some "Carl",
     studentKey := some "c@d.com" }]

/-- Witness input B: two distinct students whose Email fields are blank (the
name-fallback situation). -/
def rowsB : List SRow :=
  [{ start_time := some "100", email := some "", displayName := some "Alice",
     studentKey := some "alice" },
   { start_time := some "200", email := some "", displayName := some "Bob",
     studentKey := some "bob" }]

/-- Extract the tables of a successful run (placeholder empty tables in the
error case). -/
def okTables : Except PipelineError Tables → Tables
  | .ok t => t
  | .error _ =>
    { daily := [], totalDays := 0, summary := [], mostRecent := [], statusReport := [] }

/-- A placeholder summary row (used as the `getD` default). -/
def sumRow0 : SumRow :=
  { studentKey := "", displayName := "", email := "", daysPresent := 0,
    totalClassDays := 0, attendancePercent := 0, lastSeen := 0 }

/-- A placeholder parsed record (used as the `getD` default). -/
def prow0 : PRow := { ts := 0, classDate := 0, studentKey := "", email := "", displayName := "" }

/-- Extract the payload of a successful `standardize_columns` run
(placeholder in the error case). -/
def okStd : Except AppError (DF × Report) → DF × Report
  | .ok p => p
  | .error _ =>
    ([], { file := "", detectedTime := "", detectedEmail := "", detectedName := "",
           identifierUsed := "", columnsPreview := "" })

/-- A concrete raw input table for the C5 witness. -/
def tW : DF :=
  [("Start time", [some "100"]), ("Email", [some " A@B.com "]), ("Name", [some "Jane"])]

/-! ### Claim C7 -/
/-- Specification-side notion for claim C7: `v` is a most frequent element of
`l` and, among the elements of maximal frequency, the first-encountered one
(minimal first index). -/
def IsFirstMode (l : List String) (v : String) : Prop :=
  v ∈ l ∧ (∀ w ∈ l, l.count w ≤ l.count v) ∧
    ∀ w ∈ l, l.count w = l.count v → l.indexOf v ≤ l.indexOf w

/-- Witness input C: one student with two records on two days bearing two
different names with equal frequency (a genuine mode tie). -/
def rowsC : List SRow :=
  [{ start_time := some "100", email := some "a@b.com", displayName := some "Jane Doe",
     studentKey := some "a@b.com" },
   { start_time := some "86500", email := some "a@b.com", displayName := some "J Doe",
     studentKey := some "a@b.com" }]

/-! ### Claim C10 -/
/-- A heap of dataframe objects; a reference is an index into it.  Models
Python object identity for the frame-effect claim about
`standardize_columns`. -/
structure Heap where
  objs : List DF
deriving Repr

/-- Dereference (a dangling reference yields an empty frame). -/
def Heap.get (h : Heap) (r : Nat) : DF := h.objs.getD r []

/-- In-place mutation of the object behind `r`. -/
def Heap.set (h : Heap) (r : Nat) (d : DF) : Heap := ⟨h.objs.set r d⟩

/-- Allocate a fresh object; returns the new heap and the fresh reference. -/
def Heap.alloc (h : Heap) (d : DF) : Heap × Nat := (⟨h.objs ++ [d]⟩, h.objs.length)

/-- app.py lines 30-133 once more, instrumented with an explicit object heap
to track Python object identity.  `df = temp_df.copy()` (line 49) allocates
a fresh object; `df = df.rename(...)` (lines 57, 70) rebinds `df` to a fresh
object returned by `rename`; the column assignments of lines 87-89 and
92-116 (grouped as `resolveName` / `buildStudentKey`) mutate the object
behind `df` in place; `df[[...]]` (line 133) allocates the returned
projection.  No operation ever writes through `temp_ref`. -/
def standardize_columns_heap (h : Heap) (temp_ref : Nat) (allow_name_fallback : Bool)
    (filename : String) : Heap × Except AppError (Nat × Report) :=
  let p0 := Heap.alloc h (Heap.get h temp_ref)
  let h0 := p0.1
  let df0 := p0.2
  let original_cols := DF.cols (Heap.get h0 df0)
  let tstep : Heap × Nat × Option String :=
    if DF.hasCol (Heap.get h0 df0) "Start time" then (h0, df0, some "Start time")
    else if DF.hasCol (Heap.get h0 df0) "Timestamp" then
      ((Heap.alloc h0 (DF.rename (Heap.get h0 df0) "Timestamp" "Start time")).1,
        (Heap.alloc h0 (DF.rename (Heap.get h0 df0) "Timestamp" "Start time")).2,
        some "Timestamp")
    else (h0, df0, none)
  let h1 := tstep.1
  let df1 := tstep.2.1
  let detected_time := tstep.2.2
  if ¬ DF.hasCol (Heap.get h1 df1) "Start time" then
    (h1, .error (.missingTimestamp filename))
  else
    let estep : Heap × Nat × Option String :=
      if DF.hasCol (Heap.get h1 df1) "Email" then (h1, df1, some "Email")
      else if DF.hasCol (Heap.get h1 df1) "Email Address" then
        ((Heap.alloc h1 (DF.rename (Heap.get h1 df1) "Email Address" "Email")).1,
          (Heap.alloc h1 (DF.rename (Heap.get h1 df1) "Email Address" "Email")).2,
          some "Email Address")
      else (h1, df1, none)
    let h2 := estep.1
    let df2 := estep.2.1
    let detected_email := estep.2.2
    let nstep := resolveName (Heap.get h2 df2)
    let h3 := Heap.set h2 df2 nstep.1
    let detected_name := nstep.2
    match buildStudentKey (Heap.get h3 df2) allow_name_fallback filename with
    | .error e => (h3, .error e)
    | .ok (d4, used_identifier) =>
      let h4 := Heap.set h3 df2 d4
      if (DF.getCol (Heap.get h4 df2) "StudentKey").any (fun v => (pyToStr v).length == 0) then
        (h4, .error (.blankStudentKey filename))
      else
        let p5 := Heap.alloc h4
          (DF.select (Heap.get h4 df2) ["Start time", "Email", "DisplayName", "StudentKey"])
        (p5.1, .ok (p5.2,
          mkReport filename detected_time detected_email detected_name used_identifier
            original_cols))

/-! ## Theorems -/

/-! ### Claim C2 -/
/-- Claim C2, counterexample: `normalize_key` maps the literal string "nan" to
"nan", not to the empty string (the nan/none-to-empty replacement in app.py
line 96 is applied only to the Email column, not inside `normalize_key`), so
the claim as stated is false at the input "nan". -/
theorem C2_normalize_key_nan_cex :
    normalize_key (some "nan") = "nan" ∧ normalizeKeySpec (some "nan") = "" ∧
      ¬ normalize_key (some "nan") = "" := by
  refine ⟨?_, ?_, ?_⟩ <;> decide

/-- Claim C2 (amended): `normalize_key` trims, lower-cases, collapses internal
whitespace, and maps null and blank input to the empty string — it agrees with
the spec function `normalizeKeySpec` on every input except those whose
normalized form is literally "nan" or "none", which it returns unchanged
instead of mapping to the empty string. -/
theorem C2_normalize_key_amended (c : Cell) :
    normalize_key c = normalizeKeySpec c ∨
      (normalizeKeySpec c = "" ∧ (normalize_key c = "nan" ∨ normalize_key c = "none")) := by
  match c with
  | none => left; rfl
  | some s =>
    by_cases h1 : collapseWs (pyLower (pyStrip s)) = ""
    · left
      simp [normalize_key, normalizeKeySpec, h1]
    · by_cases h2 : collapseWs (pyLower (pyStrip s)) = "nan"
      · right
        constructor
        · simp [normalizeKeySpec, h2]
        · left; simp [normalize_key, h2]
      · by_cases h3 : collapseWs (pyLower (pyStrip s)) = "none"
        · right
          constructor
          · simp [normalizeKeySpec, h3]
          · right; simp [normalize_key, h3]
        · left
          simp [normalize_key, normalizeKeySpec, h1, h2, h3]

/-- Sanity evaluation: "  Jane   DOE " normalizes to "jane doe" in agreement
with the spec function. -/
theorem normalize_key_concrete_eval :
    normalize_key (some "  Jane   DOE ") = "jane doe" ∧
      normalizeKeySpec (some "  Jane   DOE ") = "jane doe" := by
  constructor <;> decide

/-! ### Dataframe lemmas -/
namespace DF

theorem hasCol_iff {d : DF} {c : String} : hasCol d c = true ↔ c ∈ cols d :=
  List.elem_iff

theorem boolEq_of_iff {a b : Bool} (h : a = true ↔ b = true) : a = b := by
  cases a <;> cases b <;> simp_all

theorem cols_rename (d : DF) (o n : String) :
    cols (rename d o n) = (cols d).map (fun x => if x = o then n else x) := by
  simp only [cols, rename, List.map_map]
  apply List.map_congr_left
  intro p _
  by_cases h : p.1 = o <;> simp [h]

theorem hasCol_rename_self {d : DF} {o : String} (n : String) (h : hasCol d o = true) :
    hasCol (rename d o n) n = true := by
  rw [hasCol_iff] at h ⊢
  rw [cols_rename]
  exact List.mem_map.2 ⟨o, h, if_pos rfl⟩

theorem hasCol_rename_other {d : DF} {o n c : String} (hco : c ≠ o) (hcn : c ≠ n) :
    hasCol (rename d o n) c = hasCol d c := by
  apply boolEq_of_iff
  rw [hasCol_iff, hasCol_iff, cols_rename]
  constructor
  · intro h
    rcases List.mem_map.1 h with ⟨x, hx, hfx⟩
    by_cases hxo : x = o
    · rw [if_pos hxo] at hfx
      exact absurd hfx.symm hcn
    · rw [if_neg hxo] at hfx
      exact hfx ▸ hx
  · intro h
    exact List.mem_map.2 ⟨c, h, if_neg hco⟩

theorem cols_setCol_of_hasCol {d : DF} {c : String} (v : List Cell) (h : hasCol d c = true) :
    cols (setCol d c v) = cols d := by
  simp only [setCol, h, if_pos, cols, List.map_map]
  apply List.map_congr_left
  intro p _
  by_cases hp : p.1 = c <;> simp [hp]

theorem hasCol_setCol_other {d : DF} {c c₀ : String} (v : List Cell) (h : c ≠ c₀) :
    hasCol (setCol d c₀ v) c = hasCol d c := by
  by_cases h0 : hasCol d c₀ = true
  · apply boolEq_of_iff
    rw [hasCol_iff, hasCol_iff, cols_setCol_of_hasCol v h0]
  · apply boolEq_of_iff
    rw [hasCol_iff, hasCol_iff]
    rw [setCol, if_neg h0]
    simp only [cols, List.map_append, List.mem_append]
    constructor
    · rintro (hm | hm)
      · exact hm
      · simp only [List.map_cons, List.map_nil, List.mem_singleton] at hm
        exact absurd hm h
    · exact fun hm => Or.inl hm

theorem find?_map_set_of_mem {c : String} (v : List Cell) :
    ∀ d : DF, c ∈ cols d →
      (d.map (fun p => if p.1 = c then (c, v) else p)).find? (fun p => p.1 == c) = some (c, v)
  | [], h => by simp [cols] at h
  | p :: d, h => by
    by_cases hp : p.1 = c
    · simp [List.find?, hp]
    · have hmem : c ∈ cols d := by
        rw [show cols (p :: d) = p.1 :: cols d from rfl, List.mem_cons] at h
        rcases h with h1 | h1
        · exact absurd h1.symm hp
        · exact h1
      simp only [List.map_cons, List.find?, if_neg hp]
      rw [show (p.1 == c) = false by simpa using hp]
      exact find?_map_set_of_mem v d hmem

theorem find?_append_not_mem {c : String} (v : List Cell) :
    ∀ d : DF, c ∉ cols d →
      (d ++ [(c, v)]).find? (fun p => p.1 == c) = some (c, v)
  | [], _ => by simp [List.find?]
  | p :: d, h => by
    rw [show cols (p :: d) = p.1 :: cols d from rfl, List.mem_cons] at h
    push_neg at h
    have hp : p.1 ≠ c := fun hc => h.1 hc.symm
    have hmem : c ∉ cols d := h.2
    simp only [List.cons_append, List.find?]
    rw [show (p.1 == c) = false by simpa using hp]
    exact find?_append_not_mem v d hmem

theorem getCol_setCol_self (d : DF) (c : String) (v : List Cell) :
    getCol (setCol d c v) c = v := by
  by_cases h : hasCol d c = true
  · rw [getCol, setCol, if_pos h, find?_map_set_of_mem v d (hasCol_iff.1 h)]
    rfl
  · rw [getCol, setCol, if_neg h,
      find?_append_not_mem v d (fun hm => h (hasCol_iff.2 hm))]
    rfl

theorem getCol_select_studentKey (d : DF) :
    getCol (select d ["Start time", "Email", "DisplayName", "StudentKey"]) "StudentKey" =
      getCol d "StudentKey" := rfl

end DF

/-! ### Claim C4 -/
/-- Claim C4: with name fallback disabled, a file with no email column
(neither "Email" nor "Email Address") makes `standardize_columns` fail with a
schema error carrying that file name; no normalized table is produced.  (If
the file also lacks a time column, the failure is the time-column schema
error, which likewise names the file.) -/
theorem C4_missing_email_schema_error (t : DF) (fn : String)
    (hE : DF.hasCol t "Email" = false) (hEA : DF.hasCol t "Email Address" = false) :
    ∃ e, standardize_columns t false fn = .error e ∧
      AppError.filename e = fn ∧ AppError.isSchemaError e = true := by
  have hkeep : (resolveTime t).1 = t ∨ (resolveTime t).1 = DF.rename t "Timestamp" "Start time" := by
    rw [resolveTime]
    split
    · exact Or.inl rfl
    · split
      · exact Or.inr rfl
      · exact Or.inl rfl
  have hE1 : DF.hasCol (resolveTime t).1 "Email" = false := by
    rcases hkeep with hk | hk <;> rw [hk]
    · exact hE
    · rw [DF.hasCol_rename_other (by decide) (by decide)]
      exact hE
  have hEA1 : DF.hasCol (resolveTime t).1 "Email Address" = false := by
    rcases hkeep with hk | hk <;> rw [hk]
    · exact hEA
    · rw [DF.hasCol_rename_other (by decide) (by decide)]
      exact hEA
  by_cases hT : DF.hasCol (resolveTime t).1 "Start time" = true
  · have hEe : resolveEmail (resolveTime t).1 = ((resolveTime t).1, none) := by
      rw [resolveEmail, if_neg (by simp [hE1]), if_neg (by simp [hEA1])]
    have hE2 : DF.hasCol (resolveName (resolveTime t).1).1 "Email" = false := by
      rw [resolveName]
      cases hfind : name_candidates.find? (fun c => DF.hasCol (resolveTime t).1 c) with
      | some c =>
        dsimp only
        rw [DF.hasCol_setCol_other _ (by decide)]
        exact hE1
      | none =>
        dsimp only
        rw [DF.hasCol_setCol_other _ (by decide)]
        exact hE1
    have hbuild : buildStudentKey (resolveName (resolveTime t).1).1 false fn =
        .error (.missingEmail fn) := by
      rw [buildStudentKey, if_neg (by simp [hE2])]
      simp
    refine ⟨.missingEmail fn, ?_, rfl, rfl⟩
    simp only [standardize_columns]
    rw [if_neg (by simp [hT]), hEe, hbuild]
  · refine ⟨.missingTimestamp fn, ?_, rfl, rfl⟩
    simp only [standardize_columns]
    rw [if_pos hT]

/-- Claim C4, witness: a concrete file with a time column and a name column
but no email column is rejected with an email schema error naming the file. -/
theorem C4_missing_email_schema_error_witness :
    (DF.hasCol [("Start time", [some "2024-01-01 09:00"]), ("Name", [some "Jane Doe"])] "Email" = false) ∧
    ∃ e, standardize_columns [("Start time", [some "2024-01-01 09:00"]), ("Name", [some "Jane Doe"])]
        false "roster.xlsx" = .error e ∧
      AppError.filename e = "roster.xlsx" ∧ AppError.isSchemaError e = true :=
  ⟨by decide,
   C4_missing_email_schema_error _ "roster.xlsx" (by decide) (by decide)⟩

/-- Inside one (ClassDate, StudentKey) group the full lexicographic order is
exactly the timestamp order. -/
theorem recLe_iff_tsLe_of_keyOf_eq {a b : PRow} (h : keyOf a = keyOf b) :
    recLe a b ↔ tsLe a b := by
  have h1 : a.classDate = b.classDate := congrArg Prod.fst h
  have h2 : a.studentKey.data = b.studentKey.data :=
    congrArg String.data (congrArg Prod.snd h)
  rw [recLe, sortKey, sortKey, Prod.Lex.le_iff]
  constructor
  · rintro (hlt | ⟨-, hle⟩)
    · exact absurd hlt (by rw [h1]; exact lt_irrefl _)
    · rcases (Prod.Lex.le_iff _ _).1 hle with hlt | ⟨-, hle2⟩
      · exact absurd hlt (by rw [h2] at *; exact lt_irrefl _)
      · exact hle2
  · intro hts
    refine Or.inr ⟨h1, ?_⟩
    rw [Prod.Lex.le_iff]
    exact Or.inr ⟨h2, hts⟩

/-! ### Sorting and dedup lemmas -/
theorem filter_orderedInsert_pos (p : PRow → Bool)
    (hcompat : ∀ x y, p x = true → p y = true → (recLe x y ↔ tsLe x y))
    (a : PRow) (ha : p a = true) :
    ∀ s : List PRow, s.Sorted recLe →
      (List.orderedInsert recLe a s).filter p = List.orderedInsert tsLe a (s.filter p)
  | [], _ => by simp [List.orderedInsert, ha]
  | b :: t, hsort => by
    have htail : t.Sorted recLe := (List.sorted_cons.1 hsort).2
    have hhead : ∀ c ∈ t, recLe b c := (List.sorted_cons.1 hsort).1
    by_cases hab : recLe a b
    · rw [List.orderedInsert, if_pos hab, List.filter_cons_of_pos ha]
      cases hf : (b :: t).filter p with
      | nil => rfl
      | cons c rest =>
        have hc : c ∈ (b :: t).filter p := by rw [hf]; exact List.mem_cons_self _ _
        have hcp : p c = true := (List.mem_filter.1 hc).2
        have hcm : c ∈ b :: t := (List.mem_filter.1 hc).1
        have hac : recLe a c := by
          rcases List.mem_cons.1 hcm with rfl | hcm2
          · exact hab
          · exact Trans.trans hab (hhead c hcm2)
        have hts : tsLe a c := (hcompat a c ha hcp).1 hac
        rw [List.orderedInsert, if_pos hts]
    · rw [List.orderedInsert, if_neg hab]
      by_cases hpb : p b = true
      · rw [List.filter_cons_of_pos hpb, List.filter_cons_of_pos hpb]
        have hnts : ¬ tsLe a b := fun hts => hab ((hcompat a b ha hpb).2 hts)
        rw [List.orderedInsert, if_neg hnts,
          filter_orderedInsert_pos p hcompat a ha t htail]
      · rw [List.filter_cons_of_neg (by simpa using hpb),
          List.filter_cons_of_neg (by simpa using hpb)]
        exact filter_orderedInsert_pos p hcompat a ha t htail

theorem filter_orderedInsert_neg (p : PRow → Bool) (a : PRow) (ha : p a = false) :
    ∀ s : List PRow, (List.orderedInsert recLe a s).filter p = s.filter p
  | [] => by simp [List.orderedInsert, ha]
  | b :: t => by
    by_cases hab : recLe a b
    · rw [List.orderedInsert, if_pos hab, List.filter_cons_of_neg (by simp [ha])]
    · rw [List.orderedInsert, if_neg hab]
      by_cases hpb : p b = true
      · rw [List.filter_cons_of_pos hpb, List.filter_cons_of_pos hpb,
          filter_orderedInsert_neg p a ha t]
      · rw [List.filter_cons_of_neg (by simpa using hpb),
          List.filter_cons_of_neg (by simpa using hpb),
          filter_orderedInsert_neg p a ha t]

theorem filter_insertionSort (p : PRow → Bool)
    (hcompat : ∀ x y, p x = true → p y = true → (recLe x y ↔ tsLe x y)) :
    ∀ l : List PRow,
      (List.insertionSort recLe l).filter p = List.insertionSort tsLe (l.filter p)
  | [] => rfl
  | a :: l => by
    rw [List.insertionSort]
    by_cases ha : p a = true
    · rw [filter_orderedInsert_pos p hcompat a ha _ (List.sorted_insertionSort recLe l),
        filter_insertionSort p hcompat l, List.filter_cons_of_pos ha, List.insertionSort]
    · rw [filter_orderedInsert_neg p a (by simpa using ha),
        filter_insertionSort p hcompat l, List.filter_cons_of_neg (by simpa using ha)]

theorem head?_insertionSort_tsLe :
    ∀ l : List PRow, (List.insertionSort tsLe l).head? = firstMinTs l
  | [] => rfl
  | a :: l => by
    rw [List.insertionSort]
    simp only [firstMinTs]
    cases hs : List.insertionSort tsLe l with
    | nil =>
      have h0 : firstMinTs l = none := by rw [← head?_insertionSort_tsLe l, hs]; rfl
      rw [h0]
      rfl
    | cons b t =>
      have hb : firstMinTs l = some b := by rw [← head?_insertionSort_tsLe l, hs]; rfl
      rw [hb, List.orderedInsert]
      by_cases hab : tsLe a b
      · rw [if_pos hab]
        show some a = if b.ts < a.ts then some b else some a
        rw [if_neg (Nat.not_lt.2 hab)]
      · rw [if_neg hab]
        show some b = if b.ts < a.ts then some b else some a
        rw [if_pos (Nat.not_le.1 hab)]

theorem find?_eq_head?_filter {α : Type} (p : α → Bool) :
    ∀ l : List α, l.find? p = (l.filter p).head?
  | [] => rfl
  | a :: l => by
    by_cases ha : p a = true
    · rw [List.find?_cons_of_pos _ ha, List.filter_cons_of_pos ha]
      rfl
    · rw [List.find?_cons_of_neg _ (by simpa using ha),
        List.filter_cons_of_neg (by simpa using ha), find?_eq_head?_filter p l]

theorem find?_keepFirstBy {α κ : Type} [DecidableEq κ] (key : α → κ) (k : κ) :
    ∀ (l : List α) (seen : List κ), k ∉ seen →
      (keepFirstBy key l seen).find? (fun a => decide (key a = k)) =
        l.find? (fun a => decide (key a = k))
  | [], _, _ => rfl
  | a :: l, seen, hk => by
    by_cases hs : key a ∈ seen
    · rw [keepFirstBy, if_pos hs]
      have hak : ¬ key a = k := fun h => hk (h ▸ hs)
      rw [find?_keepFirstBy key k l seen hk, List.find?_cons_of_neg _ (by simpa using hak)]
    · rw [keepFirstBy, if_neg hs]
      by_cases hak : key a = k
      · rw [List.find?_cons_of_pos _ (by simpa using hak),
          List.find?_cons_of_pos _ (by simpa using hak)]
      · rw [List.find?_cons_of_neg _ (by simpa using hak),
          List.find?_cons_of_neg _ (by simpa using hak)]
        refine find?_keepFirstBy key k l (key a :: seen) ?_
        simp only [List.mem_cons]
        rintro (h | h)
        · exact hak h.symm
        · exact hk h

theorem keepFirstBy_key_not_seen {α κ : Type} [DecidableEq κ] (key : α → κ) :
    ∀ (l : List α) (seen : List κ), ∀ a ∈ keepFirstBy key l seen, key a ∉ seen
  | [], _, a, ha => by simp [keepFirstBy] at ha
  | b :: l, seen, a, ha => by
    rw [keepFirstBy] at ha
    by_cases hs : key b ∈ seen
    · rw [if_pos hs] at ha
      exact keepFirstBy_key_not_seen key l seen a ha
    · rw [if_neg hs] at ha
      rcases List.mem_cons.1 ha with rfl | ha2
      · exact hs
      · have h2 := keepFirstBy_key_not_seen key l (key b :: seen) a ha2
        exact fun hc => h2 (List.mem_cons_of_mem _ hc)

theorem pairwise_keepFirstBy {α κ : Type} [DecidableEq κ] (key : α → κ) :
    ∀ (l : List α) (seen : List κ),
      (keepFirstBy key l seen).Pairwise (fun a b => key a ≠ key b)
  | [], _ => List.Pairwise.nil
  | b :: l, seen => by
    rw [keepFirstBy]
    by_cases hs : key b ∈ seen
    · rw [if_pos hs]
      exact pairwise_keepFirstBy key l seen
    · rw [if_neg hs]
      refine List.Pairwise.cons ?_ (pairwise_keepFirstBy key l (key b :: seen))
      intro a ha
      have h2 := keepFirstBy_key_not_seen key l (key b :: seen) a ha
      exact fun hc => h2 (hc ▸ List.mem_cons_self _ _)

theorem length_filter_le_one {α κ : Type} [DecidableEq κ] (key : α → κ) (k : κ) :
    ∀ l : List α, l.Pairwise (fun a b => key a ≠ key b) →
      (l.filter (fun a => decide (key a = k))).length ≤ 1
  | [], _ => by simp
  | a :: l, h => by
    have h1 := (List.pairwise_cons.1 h).1
    have h2 := (List.pairwise_cons.1 h).2
    by_cases hak : key a = k
    · rw [List.filter_cons_of_pos (by simpa using hak)]
      have hnil : l.filter (fun a => decide (key a = k)) = [] := by
        rw [List.filter_eq_nil_iff]
        intro b hb
        simp only [decide_eq_true_eq]
        intro hbk
        exact h1 b hb (hak.trans hbk.symm)
      rw [hnil]
      simp
    · rw [List.filter_cons_of_neg (by simpa using hak)]
      exact length_filter_le_one key k l h2

theorem keepFirstBy_sublist {α κ : Type} [DecidableEq κ] (key : α → κ) :
    ∀ (l : List α) (seen : List κ), (keepFirstBy key l seen).Sublist l
  | [], _ => List.Sublist.refl _
  | a :: l, seen => by
    rw [keepFirstBy]
    by_cases hs : key a ∈ seen
    · rw [if_pos hs]
      exact (keepFirstBy_sublist key l seen).cons a
    · rw [if_neg hs]
      exact (keepFirstBy_sublist key l (key a :: seen)).cons₂ a

theorem keepFirstBy_eq_self {α κ : Type} [DecidableEq κ] (key : α → κ) :
    ∀ (l : List α) (seen : List κ), l.Pairwise (fun a b => key a ≠ key b) →
      (∀ a ∈ l, key a ∉ seen) → keepFirstBy key l seen = l
  | [], _, _, _ => rfl
  | a :: l, seen, hp, hseen => by
    rw [keepFirstBy, if_neg (hseen a (List.mem_cons_self _ _))]
    congr 1
    refine keepFirstBy_eq_self key l (key a :: seen) (List.pairwise_cons.1 hp).2 ?_
    intro b hb
    simp only [List.mem_cons]
    rintro (h | h)
    · exact (List.pairwise_cons.1 hp).1 b hb h.symm
    · exact hseen b (List.mem_cons_of_mem _ hb) h

/-! ### Claims C3 and C8 -/
/-- Claim C3: the Deduplicator keeps at most one record per (classDate,
studentKey) pair; the kept record for a pair is exactly the
earliest-timestamp input record with that pair, ties in timestamp broken by
original input order (`firstMinTs`); and every kept record is an input
record. -/
theorem C3_dedup_earliest (df : List PRow) (k : Nat × String) :
    ((daily df).filter (fun r => decide (keyOf r = k))).length ≤ 1 ∧
      (daily df).find? (fun r => decide (keyOf r = k)) =
        firstMinTs (df.filter (fun r => decide (keyOf r = k))) ∧
      ∀ r ∈ daily df, r ∈ df := by
  refine ⟨?_, ?_, ?_⟩
  · exact length_filter_le_one keyOf k _ (pairwise_keepFirstBy keyOf _ [])
  · rw [daily, find?_keepFirstBy keyOf k _ [] (List.not_mem_nil k),
      find?_eq_head?_filter,
      filter_insertionSort _ (fun x y hx hy => recLe_iff_tsLe_of_keyOf_eq (by
        have hxk : keyOf x = k := of_decide_eq_true hx
        have hyk : keyOf y = k := of_decide_eq_true hy
        rw [hxk, hyk])),
      head?_insertionSort_tsLe]
  · intro r hr
    exact (List.perm_insertionSort recLe df).subset ((keepFirstBy_sublist keyOf _ []).subset hr)

/-- Claim C8: the Deduplicator is idempotent — applying the sort-and-keep-
first step to its own output returns it unchanged. -/
theorem C8_dedup_idempotent (df : List PRow) : daily (daily df) = daily df := by
  have hpair : (daily df).Pairwise (fun a b => keyOf a ≠ keyOf b) :=
    pairwise_keepFirstBy keyOf _ []
  have hsorted : (daily df).Sorted recLe :=
    List.Pairwise.sublist (keepFirstBy_sublist keyOf _ []) (List.sorted_insertionSort recLe df)
  rw [daily, hsorted.insertionSort_eq]
  exact keepFirstBy_eq_self keyOf _ [] hpair (fun a _ => List.not_mem_nil _)

/-! ### Claim C6 -/
theorem parseRows_eq_nil_iff (parse : Cell → Option Nat) (rows : List SRow) :
    parseRows parse rows = [] ↔ ∀ r ∈ rows, parse r.start_time = none := by
  rw [parseRows, List.filterMap_eq_nil_iff]
  constructor
  · intro h r hr
    have h2 := h r hr
    exact Option.map_eq_none.1 h2
  · intro h r hr
    rw [h r hr]
    rfl

theorem daily_ne_nil {df : List PRow} (h : df ≠ []) : daily df ≠ [] := by
  have hlen : (List.insertionSort recLe df).length = df.length :=
    List.length_insertionSort recLe df
  rw [daily]
  cases hs : List.insertionSort recLe df with
  | nil =>
    exfalso
    rw [hs] at hlen
    exact h (List.length_eq_zero.1 hlen.symm)
  | cons a t =>
    rw [keepFirstBy, if_neg (List.not_mem_nil (keyOf a))]
    exact List.cons_ne_nil _ _

/-- Claim C6: rows whose timestamp does not parse are dropped silently — the
run fails with the no-records error exactly when every input row is
unparseable — and the second `NoDataError` site (zero class days after
deduplication) is unreachable, so no other data-emptiness failure occurs. -/
theorem C6_unparseable_dropped_nodata (parse : Cell → Option Nat) (rows : List SRow) :
    (runPipeline parse rows = .error .noRecords ↔ ∀ r ∈ rows, parse r.start_time = none) ∧
      runPipeline parse rows ≠ .error .noDays := by
  by_cases h : (parseRows parse rows).isEmpty = true
  · have hnil : parseRows parse rows = [] := by
      cases hp : parseRows parse rows with
      | nil => rfl
      | cons a t => rw [hp] at h; simp [List.isEmpty] at h
    have hrun : runPipeline parse rows = .error .noRecords := by
      rw [runPipeline, if_pos h]
    constructor
    · rw [hrun]
      simp only [true_iff]
      exact (parseRows_eq_nil_iff parse rows).1 hnil
    · rw [hrun]
      simp
  · have hne : parseRows parse rows ≠ [] := by
      intro hnil
      rw [hnil] at h
      exact h rfl
    have hd : daily (parseRows parse rows) ≠ [] := daily_ne_nil hne
    have htd : ((daily (parseRows parse rows)).map PRow.classDate).toFinset.card ≠ 0 := by
      cases hdd : daily (parseRows parse rows) with
      | nil => exact absurd hdd hd
      | cons a t =>
        intro hc
        have hmem : a.classDate ∈ ((a :: t).map PRow.classDate).toFinset := by
          rw [List.mem_toFinset]
          exact List.mem_map_of_mem _ (List.mem_cons_self _ _)
        exact Finset.card_ne_zero_of_mem hmem hc
    have hall : ¬ ∀ r ∈ rows, parse r.start_time = none := by
      intro hall
      exact hne ((parseRows_eq_nil_iff parse rows).2 hall)
    have hshape : ∃ T, runPipeline parse rows = .ok T := by
      simp only [runPipeline]
      rw [if_neg h, if_neg htd]
      exact ⟨_, rfl⟩
    rcases hshape with ⟨T, hT⟩
    constructor
    · rw [hT]
      constructor
      · intro hcontra
        exact absurd hcontra (by simp)
      · intro hcontra
        exact absurd hcontra hall
    · rw [hT]
      simp

/-! ### Claim C9 -/
theorem runPipeline_ok_inv (parse : Cell → Option Nat) (rows : List SRow) (T : Tables)
    (h : runPipeline parse rows = .ok T) :
    T = { daily := daily (parseRows parse rows)
          totalDays := (((daily (parseRows parse rows)).map PRow.classDate).toFinset).card
          summary := student_summary (daily (parseRows parse rows))
            ((((daily (parseRows parse rows)).map PRow.classDate).toFinset).card)
          mostRecent := most_recent_mapped (daily (parseRows parse rows))
          statusReport := status_report (most_recent_mapped (daily (parseRows parse rows)))
            (student_summary (daily (parseRows parse rows))
              ((((daily (parseRows parse rows)).map PRow.classDate).toFinset).card)) } ∧
      (((daily (parseRows parse rows)).map PRow.classDate).toFinset).card ≠ 0 := by
  by_cases h1 : (parseRows parse rows).isEmpty = true
  · rw [runPipeline, if_pos h1] at h
    exact absurd h (by simp)
  · by_cases h2 : ((daily (parseRows parse rows)).map PRow.classDate).toFinset.card = 0
    · simp only [runPipeline] at h
      rw [if_neg h1, if_pos h2] at h
      exact absurd h (by simp)
    · simp only [runPipeline] at h
      rw [if_neg h1, if_neg h2] at h
      exact ⟨(Except.ok.inj h).symm, h2⟩

theorem round1_nonneg {q : ℚ} (h : 0 ≤ q) : 0 ≤ round1 q := by
  rw [round1]
  apply div_nonneg _ (by norm_num)
  have h1 : (0 : ℤ) ≤ round (q * 10) := by
    rw [round_eq]
    refine Int.le_floor.2 ?_
    push_cast
    linarith
  exact_mod_cast h1

theorem round1_le_100 {q : ℚ} (h : q ≤ 100) : round1 q ≤ 100 := by
  rw [round1, div_le_iff₀ (by norm_num : (0:ℚ) < 10)]
  have h1 : round (q * 10) ≤ 1000 := by
    rw [round_eq]
    have h2 : ⌊q * 10 + 1 / 2⌋ < 1001 := by
      refine Int.floor_lt.2 ?_
      push_cast
      linarith
    omega
  calc ((round (q * 10) : ℤ) : ℚ) ≤ ((1000 : ℤ) : ℚ) := by exact_mod_cast h1
    _ = 100 * 10 := by norm_num

/-- Claim C9: in every successful run, each StudentSummary row has
daysPresent ≤ totalClassDays, its attendancePercent equals
round(daysPresent / totalClassDays * 100, 1), and the percentage lies in
[0, 100]. -/
theorem C9_percent_bounds (parse : Cell → Option Nat) (rows : List SRow) (T : Tables)
    (h : runPipeline parse rows = .ok T) :
    ∀ row ∈ T.summary,
      row.daysPresent ≤ row.totalClassDays ∧
      row.attendancePercent =
        round1 ((row.daysPresent : ℚ) / (row.totalClassDays : ℚ) * 100) ∧
      0 ≤ row.attendancePercent ∧ row.attendancePercent ≤ 100 := by
  obtain ⟨hT, htd0⟩ := runPipeline_ok_inv parse rows T h
  subst hT
  intro row hrow
  simp only [student_summary] at hrow
  rcases List.mem_map.1 hrow with ⟨k, hk, rfl⟩
  have hsub : (((daily (parseRows parse rows)).filter
        (fun r => decide (r.studentKey = k))).map PRow.classDate).toFinset ⊆
      ((daily (parseRows parse rows)).map PRow.classDate).toFinset := by
    intro x hx
    rw [List.mem_toFinset] at hx ⊢
    rcases List.mem_map.1 hx with ⟨r, hr, rfl⟩
    exact List.mem_map_of_mem _ (List.mem_of_mem_filter hr)
  have hdp : (((daily (parseRows parse rows)).filter
        (fun r => decide (r.studentKey = k))).map PRow.classDate).toFinset.card ≤
      ((daily (parseRows parse rows)).map PRow.classDate).toFinset.card :=
    Finset.card_le_card hsub
  refine ⟨hdp, rfl, ?_, ?_⟩
  · apply round1_nonneg
    positivity
  · apply round1_le_100
    have htdpos : (0 : ℚ) < (((daily (parseRows parse rows)).map PRow.classDate).toFinset.card : ℚ) := by
      exact_mod_cast Nat.pos_of_ne_zero htd0
    have hfrac : ((((daily (parseRows parse rows)).filter
          (fun r => decide (r.studentKey = k))).map PRow.classDate).toFinset.card : ℚ) /
        (((daily (parseRows parse rows)).map PRow.classDate).toFinset.card : ℚ) ≤ 1 := by
      rw [div_le_one htdpos]
      exact_mod_cast hdp
    calc ((((daily (parseRows parse rows)).filter
          (fun r => decide (r.studentKey = k))).map PRow.classDate).toFinset.card : ℚ) /
        (((daily (parseRows parse rows)).map PRow.classDate).toFinset.card : ℚ) * 100
        ≤ 1 * 100 := mul_le_mul_of_nonneg_right hfrac (by norm_num)
      _ = 100 := by norm_num

theorem getD_zero_mem {α : Type} (l : List α) (dflt : α) (h : l ≠ []) :
    l.getD 0 dflt ∈ l := by
  cases l with
  | nil => exact absurd rfl h
  | cons a t => exact List.mem_cons_self _ _

/-- Claim C9, witness: the run on `rowsA` succeeds and its first summary row
(student "a@b.com", present 1 of 2 days) satisfies the bounds. -/
theorem C9_percent_bounds_witness :
    ((okTables (runPipeline parseNat rowsA)).summary.getD 0 sumRow0).daysPresent ≤
        ((okTables (runPipeline parseNat rowsA)).summary.getD 0 sumRow0).totalClassDays ∧
      0 ≤ ((okTables (runPipeline parseNat rowsA)).summary.getD 0 sumRow0).attendancePercent ∧
      ((okTables (runPipeline parseNat rowsA)).summary.getD 0 sumRow0).attendancePercent ≤ 100 := by
  have hrun : runPipeline parseNat rowsA = .ok (okTables (runPipeline parseNat rowsA)) := rfl
  have hne : (okTables (runPipeline parseNat rowsA)).summary ≠ [] := by
    obtain ⟨hT, -⟩ := runPipeline_ok_inv parseNat rowsA _ hrun
    rw [hT]
    show student_summary _ _ ≠ []
    rw [student_summary]
    simp only [ne_eq, List.map_eq_nil_iff]
    decide
  have h := C9_percent_bounds parseNat rowsA _ hrun _
    (getD_zero_mem _ sumRow0 hne)
  exact ⟨h.1, h.2.2.1, h.2.2.2⟩

/-! ### Claim C5 -/
theorem exists_of_mem_zipWith {α β γ : Type} {f : α → β → γ} :
    ∀ {l1 : List α} {l2 : List β} {x : γ}, x ∈ List.zipWith f l1 l2 → ∃ a b, x = f a b
  | a :: l1, b :: l2, x, h => by
    rw [List.zipWith_cons_cons] at h
    rcases List.mem_cons.1 h with rfl | h2
    · exact ⟨a, b, rfl⟩
    · exact exists_of_mem_zipWith h2
  | [], _, x, h => by simp at h
  | _ :: _, [], x, h => by simp at h

theorem buildStudentKey_ok_shape (df : DF) (allow : Bool) (fn : String) (d' : DF) (u : String)
    (h : buildStudentKey df allow fn = .ok (d', u)) :
    ∀ v ∈ DF.getCol d' "StudentKey", ∃ c, v = some (normalize_key c) := by
  simp only [buildStudentKey] at h
  split at h
  · split at h
    · have hd := congrArg Prod.fst (Except.ok.inj h)
      dsimp only at hd
      intro v hv
      rw [← hd, DF.getCol_setCol_self] at hv
      rcases exists_of_mem_zipWith hv with ⟨e, n, rfl⟩
      by_cases hne : normalize_key e = ""
      · exact ⟨n, by simp [hne]⟩
      · exact ⟨e, by simp [hne]⟩
    · have hd := congrArg Prod.fst (Except.ok.inj h)
      dsimp only at hd
      intro v hv
      rw [← hd, DF.getCol_setCol_self] at hv
      rcases List.mem_map.1 hv with ⟨c, hc, rfl⟩
      exact ⟨c, rfl⟩
  · split at h
    · exact absurd h (by simp)
    · have hd := congrArg Prod.fst (Except.ok.inj h)
      dsimp only at hd
      intro v hv
      rw [← hd, DF.getCol_setCol_self] at hv
      rcases List.mem_map.1 hv with ⟨c, hc, rfl⟩
      exact ⟨c, rfl⟩

theorem buildStudentKey_error_filename (df : DF) (allow : Bool) (fn : String) (e : AppError)
    (h : buildStudentKey df allow fn = .error e) : AppError.filename e = fn := by
  simp only [buildStudentKey] at h
  split at h
  · split at h <;> exact absurd h (by simp)
  · split at h
    · cases Except.error.inj h
      rfl
    · exact absurd h (by simp)

theorem standardize_ok_studentKeys (t : DF) (a : Bool) (fn : String) (d : DF) (rep : Report)
    (h : standardize_columns t a fn = .ok (d, rep)) :
    ∀ v ∈ DF.getCol d "StudentKey", (∃ c, v = some (normalize_key c)) ∧ pyToStr v ≠ "" := by
  simp only [standardize_columns] at h
  split at h
  · exact absurd h (by simp)
  · split at h
    · exact absurd h (by simp)
    · rename_i df0 used0 heq
      split at h
      · exact absurd h (by simp)
      · rename_i hng
        have hd := congrArg Prod.fst (Except.ok.inj h)
        dsimp only at hd
        intro v hv
        rw [← hd, DF.getCol_select_studentKey] at hv
        refine ⟨buildStudentKey_ok_shape _ _ _ _ _ heq v hv, ?_⟩
        intro hveq
        apply (List.any_eq_false.1 (Bool.of_not_eq_true hng)) v hv
        rw [hveq]
        rfl

theorem standardize_error_filename (t : DF) (a : Bool) (fn : String) (e : AppError)
    (h : standardize_columns t a fn = .error e) : AppError.filename e = fn := by
  simp only [standardize_columns] at h
  split at h
  · cases Except.error.inj h
    rfl
  · split at h
    · rename_i e0 heq
      cases Except.error.inj h
      exact buildStudentKey_error_filename _ _ _ _ heq
    · split at h
      · cases Except.error.inj h
        rfl
      · exact absurd h (by simp)

theorem pyIsSpace_ofNat_shifted :
    ∀ n, n < 91 → 65 ≤ n → pyIsSpace (Char.ofNat (n + 32)) = false := by decide

theorem pyIsSpace_toLower (c : Char) : pyIsSpace c.toLower = pyIsSpace c := by
  rw [Char.toLower]
  split
  · rename_i h
    have h1 : pyIsSpace (Char.ofNat (c.toNat + 32)) = false :=
      pyIsSpace_ofNat_shifted c.toNat (by omega) h.1
    have h2 : pyIsSpace c = false := by
      rw [pyIsSpace]
      simp only [Bool.or_eq_false_iff, decide_eq_false_iff_not]
      omega
    rw [h1, h2]
  · rfl

theorem not_space_head_dropWhile :
    ∀ (l : List Char) (a : Char) (t : List Char),
      l.dropWhile pyIsSpace = a :: t → pyIsSpace a = false
  | [], a, t, h => by simp at h
  | c :: l, a, t, h => by
    by_cases hc : pyIsSpace c = true
    · rw [List.dropWhile_cons_of_pos hc] at h
      exact not_space_head_dropWhile l a t h
    · rw [List.dropWhile_cons_of_neg hc] at h
      cases h
      simpa using hc

theorem stripChars_head_not_space {l : List Char} {a : Char} {t : List Char}
    (h : stripChars l = a :: t) : pyIsSpace a = false := by
  rw [stripChars] at h
  have hsplit :=
    List.takeWhile_append_dropWhile pyIsSpace (l.dropWhile pyIsSpace).reverse
  have hm2 : l.dropWhile pyIsSpace =
      ((l.dropWhile pyIsSpace).reverse.dropWhile pyIsSpace).reverse ++
        ((l.dropWhile pyIsSpace).reverse.takeWhile pyIsSpace).reverse := by
    have h2 := congrArg List.reverse hsplit
    rw [List.reverse_append, List.reverse_reverse] at h2
    exact h2.symm
  rw [h, List.cons_append] at hm2
  exact not_space_head_dropWhile l a _ hm2

theorem collapseChars_cons_of_not_space {a : Char} (l : List Char) (h : pyIsSpace a = false) :
    collapseChars (a :: l) = a :: collapseChars l := by
  cases l with
  | nil => simp [collapseChars, h]
  | cons b t => simp [collapseChars, h]

theorem stripChars_cons_not_space_ne_nil {a : Char} (l : List Char) (h : pyIsSpace a = false) :
    stripChars (a :: l) ≠ [] := by
  rw [stripChars, List.dropWhile_cons_of_neg (by simp [h])]
  intro hcontra
  rw [List.reverse_eq_nil_iff, List.dropWhile_eq_nil_iff] at hcontra
  have h2 := hcontra a (by simp)
  rw [h] at h2
  exact absurd h2 (by simp)

theorem normalize_key_head_not_space {c : Cell} (h : normalize_key c ≠ "") :
    ∃ a t, (normalize_key c).data = a :: t ∧ pyIsSpace a = false := by
  cases c with
  | none => exact absurd rfl h
  | some s =>
    cases hs : stripChars s.data with
    | nil =>
      exfalso
      apply h
      show collapseWs (pyLower (pyStrip s)) = ""
      rw [collapseWs, pyLower, pyStrip]
      show (⟨collapseChars ((stripChars s.data).map Char.toLower)⟩ : String) = ""
      rw [hs]
      rfl
    | cons a t =>
      refine ⟨a.toLower, collapseChars (t.map Char.toLower), ?_, ?_⟩
      · show collapseChars ((stripChars s.data).map Char.toLower) = _
        rw [hs, List.map_cons,
          collapseChars_cons_of_not_space _
            (by rw [pyIsSpace_toLower]; exact stripChars_head_not_space hs)]
      · rw [pyIsSpace_toLower]
        exact stripChars_head_not_space hs

theorem strip_lower_normalize_key_ne_empty {c : Cell} (h : normalize_key c ≠ "") :
    pyLower (pyStrip (normalize_key c)) ≠ "" := by
  obtain ⟨a, t, hdata, ha⟩ := normalize_key_head_not_space h
  have h1 : stripChars (normalize_key c).data ≠ [] := by
    rw [hdata]
    exact stripChars_cons_not_space_ne_nil t ha
  intro hcontra
  apply h1
  have h2 : ((pyStrip (normalize_key c)).data.map Char.toLower) = [] :=
    congrArg String.data hcontra
  exact List.map_eq_nil_iff.1 h2

theorem getD_mem_or_none (l : List Cell) (i : Nat) :
    l.getD i none ∈ l ∨ l.getD i none = none := by
  by_cases hlt : i < l.length
  · left
    rw [List.getD_eq_getElem?_getD, List.getElem?_eq_getElem hlt]
    exact List.getElem_mem hlt
  · right
    rw [List.getD_eq_getElem?_getD, List.getElem?_eq_none (by omega)]
    rfl

/-- Claim C5: every record that reaches the Deduplicator has a non-empty
StudentKey.  If each concatenated table is a successful `standardize_columns`
output, then every parsed record entering deduplication has a non-empty
studentKey (the validator rejected any file with a blank resolved key); and
the rejection policy is uniform per-file: every `standardize_columns` error
carries the name of the offending file. -/
theorem C5_nonempty_studentKey (parse : Cell → Option Nat) (outs : List DF)
    (hstd : ∀ p ∈ outs, ∃ t a fn rep, standardize_columns t a fn = .ok (p, rep)) :
    (∀ r ∈ parseRows parse (outs.flatMap toRows), r.studentKey ≠ "") ∧
      (∀ t a fn e, standardize_columns t a fn = .error e → AppError.filename e = fn) := by
  constructor
  · intro r hr
    rw [parseRows, List.mem_filterMap] at hr
    obtain ⟨srow, hsrow, hmap⟩ := hr
    rcases hparse : parse srow.start_time with _ | ts
    · rw [hparse] at hmap
      simp at hmap
    · rw [hparse] at hmap
      have hrr := Option.some.inj hmap
      have hkey : r.studentKey = pyLower (pyStrip (pyToStr srow.studentKey)) := by
        rw [← hrr]
      rw [List.mem_flatMap] at hsrow
      obtain ⟨d, hd, hs2⟩ := hsrow
      obtain ⟨t, a, fn, rep, hok⟩ := hstd d hd
      rw [toRows, List.mem_map] at hs2
      obtain ⟨i, hi, hs3⟩ := hs2
      have hcell : srow.studentKey = (DF.getCol d "StudentKey").getD i none := by
        rw [← hs3]
      rcases getD_mem_or_none (DF.getCol d "StudentKey") i with hmem | hnone
      · obtain ⟨⟨c, hcc⟩, hne⟩ := standardize_ok_studentKeys t a fn d rep hok _ hmem
        rw [hkey, hcell, hcc]
        show pyLower (pyStrip (normalize_key c)) ≠ ""
        apply strip_lower_normalize_key_ne_empty
        rw [hcc] at hne
        exact hne
      · rw [hkey, hcell, hnone]
        decide
  · exact fun t a fn e h => standardize_error_filename t a fn e h

/-- Claim C5, witness: the record parsed from the standardized output of a
concrete file has a non-empty studentKey. -/
theorem C5_nonempty_studentKey_witness :
    ((parseRows parseNat
        ([(okStd (standardize_columns tW true "w.xlsx")).1].flatMap toRows)).getD 0
      prow0).studentKey ≠ "" := by
  have hstd : ∀ p ∈ [(okStd (standardize_columns tW true "w.xlsx")).1],
      ∃ t a fn rep, standardize_columns t a fn = .ok (p, rep) := by
    intro p hp
    rw [List.mem_singleton] at hp
    exact ⟨tW, true, "w.xlsx", (okStd (standardize_columns tW true "w.xlsx")).2,
      by rw [hp]; rfl⟩
  have hne : parseRows parseNat
      ([(okStd (standardize_columns tW true "w.xlsx")).1].flatMap toRows) ≠ [] := by decide
  exact (C5_nonempty_studentKey parseNat _ hstd).1 _ (getD_zero_mem _ prow0 hne)

theorem exists_max_image (f : String → Nat) :
    ∀ (l : List String), l ≠ [] → ∃ v ∈ l, ∀ w ∈ l, f w ≤ f v
  | [], h => absurd rfl h
  | [a], _ => ⟨a, List.mem_singleton_self a, by
      intro w hw
      rw [List.mem_singleton] at hw
      rw [hw]⟩
  | a :: b :: l, _ => by
    obtain ⟨v, hv, hmax⟩ := exists_max_image f (b :: l) (by simp)
    by_cases hav : f a ≤ f v
    · refine ⟨v, List.mem_cons_of_mem _ hv, ?_⟩
      intro w hw
      rcases List.mem_cons.1 hw with rfl | hw2
      · exact hav
      · exact hmax w hw2
    · refine ⟨a, List.mem_cons_self _ _, ?_⟩
      intro w hw
      rcases List.mem_cons.1 hw with rfl | hw2
      · exact le_refl _
      · exact le_trans (hmax w hw2) (by omega)

theorem find?_indexOf_le {p : String → Bool} :
    ∀ (l : List String) (v : String), l.find? p = some v →
      ∀ w, p w = true → l.indexOf v ≤ l.indexOf w
  | [], v, h, _, _ => by simp at h
  | a :: l, v, h, w, hw => by
    by_cases hpa : p a = true
    · rw [List.find?_cons_of_pos _ hpa] at h
      cases Option.some.inj h
      simp
    · rw [List.find?_cons_of_neg _ hpa] at h
      have hva : v ≠ a := by
        intro hc
        exact hpa (hc ▸ List.find?_some h)
      have hwa : w ≠ a := by
        intro hc
        exact hpa (hc ▸ hw)
      rw [List.indexOf_cons_ne _ (Ne.symm hva), List.indexOf_cons_ne _ (Ne.symm hwa)]
      exact Nat.succ_le_succ (find?_indexOf_le l v h w hw)

theorem mode_nonblank_isFirstMode (l : List String) (dflt : String)
    (hne : l.filter (fun x => decide (pyStrip x ≠ "")) ≠ []) :
    IsFirstMode (l.filter (fun x => decide (pyStrip x ≠ ""))) (mode_nonblank l dflt) := by
  obtain ⟨v, hv, hmax⟩ :=
    exists_max_image (fun w => (l.filter (fun x => decide (pyStrip x ≠ ""))).count w)
      (l.filter (fun x => decide (pyStrip x ≠ ""))) hne
  have hpv : ((l.filter (fun x => decide (pyStrip x ≠ ""))).all
      (fun w => decide ((l.filter (fun x => decide (pyStrip x ≠ ""))).count w ≤
        (l.filter (fun x => decide (pyStrip x ≠ ""))).count v))) = true := by
    rw [List.all_eq_true]
    intro w hw
    exact decide_eq_true (hmax w hw)
  obtain ⟨u, hu⟩ : ∃ u, (l.filter (fun x => decide (pyStrip x ≠ ""))).find?
      (fun v => (l.filter (fun x => decide (pyStrip x ≠ ""))).all
        (fun w => decide ((l.filter (fun x => decide (pyStrip x ≠ ""))).count w ≤
          (l.filter (fun x => decide (pyStrip x ≠ ""))).count v))) = some u := by
    cases hf : (l.filter (fun x => decide (pyStrip x ≠ ""))).find?
        (fun v => (l.filter (fun x => decide (pyStrip x ≠ ""))).all
          (fun w => decide ((l.filter (fun x => decide (pyStrip x ≠ ""))).count w ≤
            (l.filter (fun x => decide (pyStrip x ≠ ""))).count v))) with
    | none => exact absurd hpv (List.find?_eq_none.1 hf v hv)
    | some u => exact ⟨u, rfl⟩
  have hmode : mode_nonblank l dflt = u := by
    simp only [mode_nonblank]
    rw [hu]
  rw [hmode]
  have humax : ∀ x ∈ l.filter (fun x => decide (pyStrip x ≠ "")),
      (l.filter (fun x => decide (pyStrip x ≠ ""))).count x ≤
        (l.filter (fun x => decide (pyStrip x ≠ ""))).count u := by
    intro x hx
    have h0 := List.find?_some hu
    simp only [List.all_eq_true] at h0
    exact of_decide_eq_true (h0 x hx)
  refine ⟨List.mem_of_find?_eq_some hu, humax, ?_⟩
  intro w hw hcw
  have hpw : ((l.filter (fun x => decide (pyStrip x ≠ ""))).all
      (fun x => decide ((l.filter (fun x => decide (pyStrip x ≠ ""))).count x ≤
        (l.filter (fun x => decide (pyStrip x ≠ ""))).count w))) = true := by
    rw [List.all_eq_true]
    intro x hx
    refine decide_eq_true ?_
    rw [hcw]
    exact humax x hx
  exact find?_indexOf_le _ u hu w hpw

/-- Claim C7: in every successful run, each StudentSummary row has displayName
and email equal to, among the non-blank values of that field across the
deduplicated records of the student, the most frequent one, with frequency ties broken by
the first-encountered value (and the computation is a pure function of the
input, hence deterministic). -/
theorem C7_mode_tiebreak (parse : Cell → Option Nat) (rows : List SRow) (T : Tables)
    (h : runPipeline parse rows = .ok T) :
    ∀ row ∈ T.summary,
      (((T.daily.filter (fun r => decide (r.studentKey = row.studentKey))).map
          PRow.displayName).filter (fun x => decide (pyStrip x ≠ "")) ≠ [] →
        IsFirstMode
          (((T.daily.filter (fun r => decide (r.studentKey = row.studentKey))).map
            PRow.displayName).filter (fun x => decide (pyStrip x ≠ "")))
          row.displayName) ∧
      (((T.daily.filter (fun r => decide (r.studentKey = row.studentKey))).map
          PRow.email).filter (fun x => decide (pyStrip x ≠ "")) ≠ [] →
        IsFirstMode
          (((T.daily.filter (fun r => decide (r.studentKey = row.studentKey))).map
            PRow.email).filter (fun x => decide (pyStrip x ≠ "")))
          row.email) := by
  obtain ⟨hT, htd0⟩ := runPipeline_ok_inv parse rows T h
  subst hT
  intro row hrow
  simp only [student_summary] at hrow
  rcases List.mem_map.1 hrow with ⟨k, hk, rfl⟩
  dsimp only
  constructor
  · intro hne
    exact mode_nonblank_isFirstMode _ "Unknown" hne
  · intro hne
    exact mode_nonblank_isFirstMode _ "" hne

/-- Claim C7, witness: on `rowsC` the displayName of the summary row is the
first-encountered of the two equally frequent names of its student. -/
theorem C7_mode_tiebreak_witness :
    IsFirstMode
      ((((okTables (runPipeline parseNat rowsC)).daily.filter
          (fun r => decide (r.studentKey =
            ((okTables (runPipeline parseNat rowsC)).summary.getD 0 sumRow0).studentKey))).map
        PRow.displayName).filter (fun x => decide (pyStrip x ≠ "")))
      ((okTables (runPipeline parseNat rowsC)).summary.getD 0 sumRow0).displayName := by
  have hrun : runPipeline parseNat rowsC = .ok (okTables (runPipeline parseNat rowsC)) := rfl
  have hne : (okTables (runPipeline parseNat rowsC)).summary ≠ [] := by
    obtain ⟨hT, -⟩ := runPipeline_ok_inv parseNat rowsC _ hrun
    rw [hT]
    show student_summary _ _ ≠ []
    rw [student_summary]
    simp only [ne_eq, List.map_eq_nil_iff]
    decide
  exact (C7_mode_tiebreak parseNat rowsC _ hrun _ (getD_zero_mem _ sumRow0 hne)).1 (by decide)

/-! ### Claim C1 -/
/-- Claim C1, counterexample: the status-report merge is keyed on the Email
column, not on studentKey.  On `rowsB` (two distinct students, both with
blank emails, as under name fallback) the report joins a MostRecentByStudent
row with the StudentSummary row of a DIFFERENT student, so "two rows are
joined iff their studentKey values are equal" is false for this run. -/
theorem C1_join_not_on_studentKey_cex :
    ∃ p ∈ (okTables (runPipeline parseNat rowsB)).statusReport,
      ∃ s, p.2 = some s ∧ ¬ p.1.studentKey = s.studentKey := by
  have h : ((okTables (runPipeline parseNat rowsB)).statusReport.any
      (fun p => match p.2 with
        | some s => decide (¬ p.1.studentKey = s.studentKey)
        | none => false)) = true := by decide
  rw [List.any_eq_true] at h
  obtain ⟨p, hp, hpr⟩ := h
  refine ⟨p, hp, ?_⟩
  cases hs : p.2 with
  | none =>
    rw [hs] at hpr
    simp at hpr
  | some s =>
    rw [hs] at hpr
    exact ⟨s, rfl, of_decide_eq_true hpr⟩

/-- Claim C1 (amended): in every successful run, the StudentStatusReport is
the left-join of MostRecentByStudent with StudentSummary **on the resolved
Email column**: a pair (m, some s) appears iff m is a most-recent row, s is a
summary row, and their Email values are equal; (m, none) appears iff m is a
most-recent row matching no summary email.  The join is not keyed on
studentKey, so under name fallback rows of different students with equal
(e.g. blank) mode emails are cross-joined. -/
theorem C1_join_on_email_amended (parse : Cell → Option Nat) (rows : List SRow) (T : Tables)
    (h : runPipeline parse rows = .ok T) (m : PRow) (s : SumRow) :
    ((m, some s) ∈ T.statusReport ↔ m ∈ T.mostRecent ∧ s ∈ T.summary ∧ s.email = m.email) ∧
    ((m, (none : Option SumRow)) ∈ T.statusReport ↔
      m ∈ T.mostRecent ∧ ∀ s2 ∈ T.summary, ¬ s2.email = m.email) := by
  obtain ⟨hT, -⟩ := runPipeline_ok_inv parse rows T h
  subst hT
  dsimp only
  rw [status_report]
  constructor
  · rw [(List.perm_insertionSort statusLe _).mem_iff, List.mem_flatMap]
    constructor
    · rintro ⟨m2, hm2, hmem⟩
      dsimp only at hmem
      split at hmem
      · rcases List.mem_singleton.1 hmem with h2
        exact absurd (congrArg Prod.snd h2) (by simp)
      · rcases List.mem_map.1 hmem with ⟨s2, hs2, heq2⟩
        have hm : m2 = m := congrArg Prod.fst heq2
        have hs : some s2 = some s := congrArg Prod.snd heq2
        cases Option.some.inj hs
        subst hm
        exact ⟨hm2, (List.mem_filter.1 hs2).1, of_decide_eq_true (List.mem_filter.1 hs2).2⟩
    · rintro ⟨hm, hs, he⟩
      refine ⟨m, hm, ?_⟩
      dsimp only
      have hsf : s ∈ (student_summary (daily (parseRows parse rows))
            ((((daily (parseRows parse rows)).map PRow.classDate).toFinset).card)).filter
          (fun s2 => decide (s2.email = m.email)) :=
        List.mem_filter.2 ⟨hs, decide_eq_true he⟩
      rw [if_neg (by
        intro hemp
        rw [List.isEmpty_iff] at hemp
        rw [hemp] at hsf
        exact absurd hsf (List.not_mem_nil _))]
      exact List.mem_map.2 ⟨s, hsf, rfl⟩
  · rw [(List.perm_insertionSort statusLe _).mem_iff, List.mem_flatMap]
    constructor
    · rintro ⟨m2, hm2, hmem⟩
      dsimp only at hmem
      split at hmem
      · rename_i hemp
        rcases List.mem_singleton.1 hmem with h2
        have hm : m2 = m := (congrArg Prod.fst h2).symm
        subst hm
        refine ⟨hm2, ?_⟩
        intro s2 hs2 he2
        rw [List.isEmpty_iff, List.filter_eq_nil_iff] at hemp
        exact absurd (decide_eq_true he2) (hemp s2 hs2)
      · rcases List.mem_map.1 hmem with ⟨s2, hs2, heq2⟩
        exact absurd (congrArg Prod.snd heq2) (by simp)
    · rintro ⟨hm, hnone⟩
      refine ⟨m, hm, ?_⟩
      dsimp only
      have hemp : (student_summary (daily (parseRows parse rows))
            ((((daily (parseRows parse rows)).map PRow.classDate).toFinset).card)).filter
          (fun s2 => decide (s2.email = m.email)) = [] := by
        rw [List.filter_eq_nil_iff]
        intro s2 hs2
        simpa using hnone s2 hs2
      rw [if_pos (by rw [List.isEmpty_iff]; exact hemp)]
      exact List.mem_singleton_self _

/-- Claim C1 (amended), witness: on `rowsA` the first most-recent row and the
first summary row (the same student, equal emails) are joined in the status
report. -/
theorem C1_join_on_email_amended_witness :
    ((okTables (runPipeline parseNat rowsA)).mostRecent.getD 0 prow0,
      some ((okTables (runPipeline parseNat rowsA)).summary.getD 0 sumRow0)) ∈
      (okTables (runPipeline parseNat rowsA)).statusReport := by
  have hrun : runPipeline parseNat rowsA = .ok (okTables (runPipeline parseNat rowsA)) := rfl
  refine ((C1_join_on_email_amended parseNat rowsA _ hrun _ _).1).2 ⟨?_, ?_, ?_⟩
  · exact getD_zero_mem _ prow0 (by decide)
  · exact getD_zero_mem _ sumRow0 (by decide)
  · decide

theorem Heap.length_alloc (h : Heap) (d : DF) :
    (Heap.alloc h d).1.objs.length = h.objs.length + 1 := by
  simp [Heap.alloc]

theorem Heap.length_set (h : Heap) (r : Nat) (d : DF) :
    (Heap.set h r d).objs.length = h.objs.length := by
  simp [Heap.set]

theorem Heap.alloc_ref (h : Heap) (d : DF) : (Heap.alloc h d).2 = h.objs.length := rfl

theorem Heap.get_alloc_lt (h : Heap) (d : DF) (r : Nat) (hr : r < h.objs.length) :
    Heap.get (Heap.alloc h d).1 r = Heap.get h r := by
  simp only [Heap.get, Heap.alloc]
  rw [List.getD_eq_getElem?_getD, List.getD_eq_getElem?_getD,
    List.getElem?_append_left hr]

theorem Heap.get_set_ne (h : Heap) (d : DF) (r r2 : Nat) (hne : r ≠ r2) :
    Heap.get (Heap.set h r2 d) r = Heap.get h r := by
  simp only [Heap.get, Heap.set]
  rw [List.getD_eq_getElem?_getD, List.getD_eq_getElem?_getD,
    List.getElem?_set_ne (Ne.symm hne)]

theorem Heap.get_alloc_self (h : Heap) (d : DF) :
    Heap.get (Heap.alloc h d).1 (Heap.alloc h d).2 = d := by
  simp only [Heap.get, Heap.alloc]
  rw [List.getD_eq_getElem?_getD, List.getElem?_append_right (le_refl _)]
  simp

theorem Heap.get_set_self (h : Heap) (d : DF) (r : Nat) (hr : r < h.objs.length) :
    Heap.get (Heap.set h r d) r = d := by
  simp only [Heap.get, Heap.set]
  rw [List.getD_eq_getElem?_getD]
  simp [List.getElem?_set, hr]

set_option maxHeartbeats 1000000 in
/-- Claim C10: `standardize_columns` never mutates its input.  In the
heap-instrumented model, after the call returns or raises, the `temp_df`
object of the caller is unchanged, and a successful result is a fresh object
distinct from the input. -/
theorem C10_no_mutation (h : Heap) (temp_ref : Nat) (allow : Bool) (fn : String)
    (href : temp_ref < h.objs.length) :
    Heap.get (standardize_columns_heap h temp_ref allow fn).1 temp_ref = Heap.get h temp_ref ∧
      ∀ r rep, (standardize_columns_heap h temp_ref allow fn).2 = .ok (r, rep) →
        r ≠ temp_ref := by
  constructor
  · simp only [standardize_columns_heap]
    repeat' split
    all_goals
      repeat'
        first
        | rw [Heap.get_alloc_self]
        | rw [Heap.get_set_self]
        | rw [Heap.get_alloc_lt]
        | rw [Heap.get_set_ne]
        | dsimp only
    all_goals
      (try simp only [Heap.length_alloc, Heap.length_set, Heap.alloc_ref]); omega
  · simp only [standardize_columns_heap]
    intro r rep hok
    repeat' (first | (split at hok) | (dsimp only at hok))
    all_goals
      first
      | exact Except.noConfusion hok
      | (simp only [Except.ok.injEq, Prod.mk.injEq] at hok
         rw [← hok.1]
         simp only [Heap.alloc_ref, Heap.length_alloc, Heap.length_set]
         omega)

/-- Claim C10, witness: running the heap-instrumented normalizer on a
one-object heap leaves the table of the caller unchanged. -/
theorem C10_no_mutation_witness :
    Heap.get (standardize_columns_heap ⟨[tW]⟩ 0 false "w.xlsx").1 0 = Heap.get ⟨[tW]⟩ 0 :=
  (C10_no_mutation ⟨[tW]⟩ 0 false "w.xlsx" (by decide)).1
